import Mathlib

/-!
# Formal model of the maidsafe_vault account databases

A shallow embedding of the three source files of the repository:

* `src/utils.rs` — the `median` aggregator;
* `src/pmid_manager/database.rs` — usage accounts (`AccountValue`, `Account`,
  `PmidManagerDatabase`) and their median-based merge;
* `src/data_manager/database.rs` — holder accounts (`Account`, `Database`)
  and their quorum-based merge, plus the churn drain
  `retrieve_all_and_reset`.

Modelling conventions:

* `::routing::NameType` (an opaque 64-byte identifier with structural
  equality) is modelled as `Nat`; only decidable equality of names is ever
  used by the code under study.
* `u64` values are modelled as `Nat`; where the Rust code can overflow
  (the `+` in `median`, `AccountValue::put_data`) the result is reduced
  `% 2 ^ 64`, the release-mode two's-complement wrap.  Loop counters that
  are bounded by a list length (the bucket counts in the holder merge) are
  plain `Nat`.
* `std::collections::HashMap` is modelled as an association list with
  (by construction) at most one entry per key; `entry(..).or_insert(..)`
  becomes an explicit lookup-then-insert, insertion appends at the end.
  No claim depends on the (unspecified) iteration order of a multi-entry
  `HashMap`.
* The serialisation codec is external to the repository (`cbor` /
  `::routing::utils::{encode, decode}`); the spec treats it as an opaque
  round-tripping capability.  A peer response consumed by a `merge` is
  therefore represented by its decode outcome: `some a` for a response
  whose `serialised_contents` decode to the account `a`, `none` for an
  undecodable response.  An outbound `Refresh` payload (the cbor encoding
  of the one-element array `[account]`) is represented by the account it
  encodes.
* `Vec::sort` / `Vec::sort_by` are Rust's stable sorts.  A stable sort's
  output is uniquely determined by the comparator and the input order, so
  they are modelled by `List.insertionSort`, which is also stable
  (`orderedInsert` places an earlier element in front of every element it
  compares equal to).
* The Rust panic that `stats[0]` raises on an empty vector is modelled by
  `Except.error ()`; a normal return is `Except.ok`.
-/

namespace MaidsafeVault

/-- `::routing::NameType`, an opaque node/content identifier. -/
abbrev NameType := Nat

/-- `median` from `src/utils.rs`: the median (rounded down) of an unsorted
vector of `u64`, `0` for the empty vector.  `values.sort()` is modelled by
`List.insertionSort (· ≤ ·)` (identical output: the ascending reordering of
a multiset of naturals is unique).  The addition of the two central values
is `u64` addition and wraps `% 2 ^ 64`. -/
def median (values : List Nat) : Nat :=
  if values.length = 0 then 0
  else if values.length = 1 then values.headI
  else
    let len := values.length
    let sorted := List.insertionSort (fun a b => a ≤ b) values
    if len % 2 = 0 then
      let lower_value := sorted.getD (len / 2 - 1) 0
      let upper_value := sorted.getD (len / 2) 0
      ((lower_value + upper_value) % 2 ^ 64) / 2
    else
      sorted.getD (len / 2) 0

/-- `HashMap::remove(k)` followed by `HashMap::insert(k, v)`: drop the entry
stored under `k` (a `HashMap` holds at most one) and append the new one. -/
def setEntry {β : Type} (s : List (Nat × β)) (k : Nat) (v : β) : List (Nat × β) :=
  (s.filter fun p => decide (p.1 ≠ k)) ++ [(k, v)]

namespace PmidManager

/-- `pmid_manager::database::PmidNodeName`. -/
abbrev PmidNodeName := NameType

/-- `pmid_manager::database::AccountValue`: the three usage counters of one
storage node. -/
structure AccountValue where
  stored_total_size : Nat
  lost_total_size : Nat
  offered_space : Nat
deriving DecidableEq

/-- `AccountValue::new`. -/
def AccountValue.new (stored_total_size lost_total_size offered_space : Nat) : AccountValue :=
  ⟨stored_total_size, lost_total_size, offered_space⟩

/-- `AccountValue::put_data`: `stored_total_size += size` (u64 wrap), always
returns `true`.  The returned pair is (updated value, returned bool). -/
def AccountValue.put_data (v : AccountValue) (size : Nat) : AccountValue × Bool :=
  ({ v with stored_total_size := (v.stored_total_size + size) % 2 ^ 64 }, true)

/-- `AccountValue::delete_data`: subtract `size` from `stored_total_size`,
clamping at zero. -/
def AccountValue.delete_data (v : AccountValue) (size : Nat) : AccountValue :=
  if v.stored_total_size < size then { v with stored_total_size := 0 }
  else { v with stored_total_size := v.stored_total_size - size }

/-- `pmid_manager::database::Account`: a usage account. -/
structure Account where
  name : PmidNodeName
  value : AccountValue
deriving DecidableEq

/-- `Account::new`. -/
def Account.new (name : PmidNodeName) (value : AccountValue) : Account :=
  ⟨name, value⟩

/-- The reports of a batch that survive the loop's two `continue`s: the
decodable ones whose declared name equals `from_group`. -/
def validAccounts (from_group : NameType) (responses : List (Option Account)) : List Account :=
  responses.filterMap fun r =>
    r.bind fun a => if a.name = from_group then some a else none

/-- `<Account as Refreshable>::merge` from `src/pmid_manager/database.rs`:
push the three counters of every valid report into three vectors, then
return `Some` account built from the three medians.  (The code returns
`Some` unconditionally.) -/
def Account.merge (from_group : NameType) (responses : List (Option Account)) : Option Account :=
  let sizes := responses.foldl
    (fun (acc : List Nat × List Nat × List Nat) r =>
      match r with
      | none => acc
      | some account =>
          if account.name ≠ from_group then acc
          else (acc.1 ++ [account.value.stored_total_size],
                acc.2.1 ++ [account.value.lost_total_size],
                acc.2.2 ++ [account.value.offered_space]))
    ([], [], [])
  some (Account.new from_group
    (AccountValue.new (median sizes.1) (median sizes.2.1) (median sizes.2.2)))

/-- `pmid_manager::database::PmidManagerDatabase`. -/
structure PmidManagerDatabase where
  storage : List (PmidNodeName × AccountValue)
deriving DecidableEq

/-- `PmidManagerDatabase::new`. -/
def PmidManagerDatabase.new : PmidManagerDatabase := ⟨[]⟩

/-- `PmidManagerDatabase::handle_account_transfer`: remove the entry stored
under the account's name, then insert the transferred value. -/
def PmidManagerDatabase.handle_account_transfer (db : PmidManagerDatabase)
    (merged_account : Account) : PmidManagerDatabase :=
  ⟨setEntry db.storage merged_account.name merged_account.value⟩

end PmidManager

namespace DataManager

/-- `data_manager::database::PmidNode`. -/
abbrev PmidNode := NameType

/-- `data_manager::database::DataName`. -/
abbrev DataName := NameType

/-- `data_manager::database::PmidNodes`. -/
abbrev PmidNodes := List PmidNode

/-- `data_manager::database::Account`: a holder account.  The
`preserialised_content` bytes are modelled as a list of naturals. -/
structure Account where
  name : DataName
  data_holders : PmidNodes
  preserialised_content : List Nat
  has_preserialised_content : Bool
deriving DecidableEq

/-- `Account::new`: empty preserialised content. -/
def Account.new (name : DataName) (data_holders : PmidNodes) : Account :=
  ⟨name, data_holders, [], false⟩

/-- One step of the bucket-counting loop of the holder merge: find the first
`stats` entry whose holder set equals `holders` and increment its count,
or push `(holders, 1)` at the end. -/
def bump (stats : List (PmidNodes × Nat)) (holders : PmidNodes) : List (PmidNodes × Nat) :=
  match stats with
  | [] => [(holders, 1)]
  | (p, c) :: rest =>
      if p = holders then (p, c + 1) :: rest else (p, c) :: bump rest holders

/-- `<Account as Refreshable>::merge` from `src/data_manager/database.rs`.
`group_size` is `::routing::types::GROUP_SIZE`, a constant of the external
routing crate (its value is not part of this repository), kept as a
parameter.  The loop buckets valid reports with `bump`; `sort_by` on the
descending count comparator is the stable `List.insertionSort` with
`b.2 ≤ a.2`; the subsequent `stats[0]` panics (`Except.error ()`) when
`stats` is empty. -/
def Account.merge (group_size : Nat) (from_group : NameType)
    (responses : List (Option Account)) : Except Unit (Option Account) :=
  let stats := responses.foldl
    (fun stats r =>
      match r with
      | none => stats
      | some account =>
          if account.name ≠ from_group then stats
          else bump stats account.data_holders)
    []
  match List.insertionSort (fun a b => b.2 ≤ a.2) stats with
  | [] => Except.error ()
  | (pmids, count) :: _ =>
      if count ≥ (group_size + 1) / 2 then Except.ok (some (Account.new from_group pmids))
      else Except.ok none

/-- The valid reports of a batch: decodable and declaring `from_group`. -/
def validAccounts (from_group : NameType) (responses : List (Option Account)) : List Account :=
  responses.filterMap fun r =>
    r.bind fun a => if a.name = from_group then some a else none

/-- Spec-side selection step of §4.3: the first bucket reaching the maximal
occurrence count ("ties broken by encounter order — first bucket reaching
the maximum wins"). -/
def firstMax : List (PmidNodes × Nat) → Option (PmidNodes × Nat)
  | [] => none
  | x :: xs =>
      match firstMax xs with
      | none => some x
      | some m => if x.2 < m.2 then some m else some x

/-- Spec-side merge of §4.3, written from the spec's words for the
refinement claim: (1) discard invalid reports; (2) bucket the remaining
reports by exact holder-set value, counting occurrences; (3) pick the first
bucket reaching the highest count; (4) return an account exactly when that
count is at least `(group_size + 1) / 2`. -/
def mergeSpec (group_size : Nat) (from_group : NameType)
    (responses : List (Option Account)) : Option Account :=
  let buckets := (validAccounts from_group responses).foldl
    (fun stats a => bump stats a.data_holders) []
  match firstMax buckets with
  | none => none
  | some (holders, count) =>
      if (group_size + 1) / 2 ≤ count then some (Account.new from_group holders)
      else none

/-- `data_manager::database::Database`. -/
structure Database where
  storage : List (DataName × PmidNodes)
  close_grp_from_churn : List NameType
  temp_storage_after_churn : List (NameType × PmidNodes)
deriving DecidableEq

/-- `Database::new`. -/
def Database.new : Database := ⟨[], [], []⟩

/-- `Database::exist`: `contains_key`. -/
def Database.exist (db : Database) (name : DataName) : Bool :=
  (db.storage.lookup name).isSome

/-- `Database::put_pmid_nodes`: `entry(name).or_insert(pmid_nodes)` — insert
only when the key is absent. -/
def Database.put_pmid_nodes (db : Database) (name : DataName) (pmid_nodes : PmidNodes) :
    Database :=
  match db.storage.lookup name with
  | some _ => db
  | none => { db with storage := db.storage ++ [(name, pmid_nodes)] }

/-- `Database::add_pmid_node`: `or_insert(vec![pmid_node])`, then push
`pmid_node` only when not already present. -/
def Database.add_pmid_node (db : Database) (name : DataName) (pmid_node : PmidNode) :
    Database :=
  match db.storage.lookup name with
  | none => { db with storage := db.storage ++ [(name, [pmid_node])] }
  | some _ =>
      { db with storage := db.storage.map fun p =>
          if p.1 = name then
            (p.1, if pmid_node ∈ p.2 then p.2 else p.2 ++ [pmid_node])
          else p }

/-- `Database::remove_pmid_node`: no-op when the key is absent, else remove
the first occurrence of `pmid_node` from the stored holder list. -/
def Database.remove_pmid_node (db : Database) (name : DataName) (pmid_node : PmidNode) :
    Database :=
  match db.storage.lookup name with
  | none => db
  | some _ =>
      { db with storage := db.storage.map fun p =>
          if p.1 = name then (p.1, p.2.erase pmid_node) else p }

/-- `Database::get_pmid_nodes`: the stored holder list, or `[]`. -/
def Database.get_pmid_nodes (db : Database) (name : DataName) : PmidNodes :=
  (db.storage.lookup name).getD []

/-- `Database::handle_account_transfer`: remove then insert under the
account's name. -/
def Database.handle_account_transfer (db : Database) (merged_account : Account) : Database :=
  { db with storage := setEntry db.storage merged_account.name merged_account.data_holders }

/-- `::routing::immutable_data::ImmutableDataType` (external routing type;
the drain only uses `Normal`). -/
inductive ImmutableDataType where
  | Normal
  | Backup
  | Sacrificial
deriving DecidableEq

/-- The external routing authorities used by the drain. -/
inductive Authority where
  | ManagedNode (name : NameType)
  | NaeManager (name : NameType)
  | NodeManager (name : NameType)
deriving DecidableEq

/-- `::routing::data::DataRequest` as used by the drain. -/
inductive DataRequest where
  | ImmutableData (name : DataName) (dataType : ImmutableDataType)
deriving DecidableEq

/-- `::types::MethodCall`, restricted to the two variants the data-manager
drain emits.  The `Refresh` payload (cbor bytes of `[account]`) is
represented by the account itself. -/
inductive MethodCall where
  | Get (location : Authority) (data_request : DataRequest)
  | Refresh (type_tag : Nat) (our_authority : Authority) (payload : Account)
deriving DecidableEq

/-- `transfer_parser::transfer_tags::DATA_MANAGER_ACCOUNT_TAG`, an opaque
type discriminant of an external crate; only its identity matters here, so
an arbitrary representative is used. -/
def DATA_MANAGER_ACCOUNT_TAG : Nat := 64

/-- `Database::retrieve_all_and_reset`: snapshot the table into
`temp_storage_after_churn`; per entry, emit one `Get` per holder when the
holder count is below 3, then one `Refresh` carrying the entry's account
(the in-memory cbor encoding always succeeds); finally clear the table.
The `_close_group` argument is unused, as in the source. -/
def Database.retrieve_all_and_reset (db : Database) (_close_group : List NameType) :
    List MethodCall × Database :=
  let actions := db.storage.foldl
    (fun acc kv =>
      acc
        ++ (if kv.2.length < 3 then
              kv.2.map fun pmid_node =>
                MethodCall.Get (Authority.ManagedNode pmid_node)
                  (DataRequest.ImmutableData kv.1 ImmutableDataType.Normal)
            else [])
        ++ [MethodCall.Refresh DATA_MANAGER_ACCOUNT_TAG (Authority.NaeManager kv.1)
              (Account.new kv.1 kv.2)])
    []
  (actions, { db with temp_storage_after_churn := db.storage, storage := [] })

/-- The four holder-store operations quantified over by the reachability
claim. -/
inductive Op where
  | put (name : DataName) (pmid_nodes : PmidNodes)
  | add (name : DataName) (pmid_node : PmidNode)
  | remove (name : DataName) (pmid_node : PmidNode)
  | transfer (merged_account : Account)
deriving DecidableEq

/-- Apply one operation to the store. -/
def applyOp (db : Database) : Op → Database
  | .put name ns => db.put_pmid_nodes name ns
  | .add name n => db.add_pmid_node name n
  | .remove name n => db.remove_pmid_node name n
  | .transfer a => db.handle_account_transfer a

/-- Apply a sequence of operations, oldest first. -/
def applyOps (db : Database) (ops : List Op) : Database :=
  ops.foldl applyOp db

/-- The holder lists an operation injects verbatim into the store are
duplicate-free (`add` and `remove` have no such argument). -/
def Op.argsNodup : Op → Prop
  | .put _ ns => ns.Nodup
  | .transfer a => a.data_holders.Nodup
  | _ => True

instance : DecidablePred Op.argsNodup := fun op =>
  match op with
  | .put _ ns => (inferInstance : Decidable ns.Nodup)
  | .add _ _ => isTrue trivial
  | .remove _ _ => isTrue trivial
  | .transfer a => (inferInstance : Decidable a.data_holders.Nodup)

end DataManager

/-! ## Theorems -/

/-- Looking up the written key after a remove-then-insert finds the new
value. -/
theorem lookup_setEntry_self {β : Type} (s : List (Nat × β)) (k : Nat) (v : β) :
    (setEntry s k v).lookup k = some v := by
  induction s with
  | nil => simp [setEntry, List.lookup]
  | cons p s ih =>
      by_cases h : p.1 = k
      · simpa [setEntry, h] using ih
      · have hk : (k == p.1) = false := by
          simp only [beq_eq_false_iff_ne]
          exact fun hh => h hh.symm
        simpa [setEntry, List.lookup, h, hk] using ih

/-- A remove-then-insert under key `k` leaves the lookup of every other key
unchanged. -/
theorem lookup_setEntry_other {β : Type} (s : List (Nat × β)) (k k' : Nat) (v : β)
    (h : k' ≠ k) : (setEntry s k v).lookup k' = s.lookup k' := by
  have hkk : (k' == k) = false := by simp only [beq_eq_false_iff_ne]; exact h
  induction s with
  | nil => simp [setEntry, List.lookup, hkk]
  | cons p s ih =>
      by_cases hp : p.1 = k
      · have hk' : (k' == p.1) = false := by rw [hp]; exact hkk
        simpa [setEntry, List.lookup, hp, hk', hkk] using ih
      · by_cases hk' : k' = p.1
        · have ht : (k' == p.1) = true := by simp [hk']
          simp [setEntry, List.lookup, hp, ht]
        · have hf : (k' == p.1) = false := by simp only [beq_eq_false_iff_ne]; exact hk'
          simpa [setEntry, List.lookup, hp, hf] using ih

namespace PmidManager

/-- The counter-collecting loop of the usage merge pushes exactly the three
per-field sequences of the valid reports. -/
theorem pm_collect (from_group : NameType) :
    ∀ (responses : List (Option Account)) (acc : List Nat × List Nat × List Nat),
      responses.foldl
        (fun (acc : List Nat × List Nat × List Nat) r =>
          match r with
          | none => acc
          | some account =>
              if account.name ≠ from_group then acc
              else (acc.1 ++ [account.value.stored_total_size],
                    acc.2.1 ++ [account.value.lost_total_size],
                    acc.2.2 ++ [account.value.offered_space]))
        acc
      = (acc.1 ++ (validAccounts from_group responses).map (fun a => a.value.stored_total_size),
         acc.2.1 ++ (validAccounts from_group responses).map (fun a => a.value.lost_total_size),
         acc.2.2 ++ (validAccounts from_group responses).map (fun a => a.value.offered_space))
  | [], acc => by simp [validAccounts]
  | none :: rs, acc => by
      simpa [validAccounts] using pm_collect from_group rs acc
  | some a :: rs, acc => by
      by_cases h : a.name = from_group
      · simpa [validAccounts, h] using pm_collect from_group rs
          (acc.1 ++ [a.value.stored_total_size], acc.2.1 ++ [a.value.lost_total_size],
           acc.2.2 ++ [a.value.offered_space])
      · simpa [validAccounts, h] using pm_collect from_group rs acc

/-- The usage merge always returns the account of per-field medians over
the valid reports. -/
theorem pm_merge_eq_medians (from_group : NameType) (responses : List (Option Account)) :
    Account.merge from_group responses
      = some (Account.new from_group (AccountValue.new
          (median ((validAccounts from_group responses).map fun a => a.value.stored_total_size))
          (median ((validAccounts from_group responses).map fun a => a.value.lost_total_size))
          (median ((validAccounts from_group responses).map fun a => a.value.offered_space)))) := by
  unfold Account.merge
  rw [pm_collect from_group responses ([], [], [])]
  simp

/-- Claim C3, counterexample: the usage merge of the empty batch does not
signal "no merge result"; it returns the silently constructed all-zero
usage record. -/
theorem c3_counterexample :
    Account.merge 0 ([] : List (Option Account)) ≠ none
      ∧ Account.merge 0 ([] : List (Option Account))
          = some (Account.new 0 (AccountValue.new 0 0 0)) :=
  ⟨by decide, rfl⟩

/-- Claim C3 as amended: for every group identity, the usage-account merge
applied to a batch with zero valid reports (empty, undecodable or
key-mismatched) returns `some` usage account for `from_group` whose three
counters are all `0` — the medians of empty sequences — rather than the
explicit "no merge result" value. -/
theorem c3_merge_zero_valid (from_group : NameType) (responses : List (Option Account))
    (h : validAccounts from_group responses = []) :
    Account.merge from_group responses
      = some (Account.new from_group (AccountValue.new 0 0 0)) := by
  rw [pm_merge_eq_medians, h]
  rfl

/-- Witness for C3's amended theorem at a concrete all-invalid batch. -/
theorem c3_merge_zero_valid_witness :
    validAccounts 0 [none, some (Account.new 1 (AccountValue.new 4 5 6))] = []
      ∧ Account.merge 0 [none, some (Account.new 1 (AccountValue.new 4 5 6))]
          = some (Account.new 0 (AccountValue.new 0 0 0)) :=
  ⟨by decide, c3_merge_zero_valid 0 [none, some (Account.new 1 (AccountValue.new 4 5 6))]
    (by decide)⟩

/-- Claim C4: with at least one valid report the usage merge returns, for
`from_group`, the per-field medians of the valid reports; in particular
stored sizes `[10, 20, 30]` merge to `20` and `[10, 20, 30, 40]` to `25`. -/
theorem c4_pm_merge_median (from_group : NameType) (responses : List (Option Account))
    (_h : validAccounts from_group responses ≠ []) :
    Account.merge from_group responses
      = some (Account.new from_group (AccountValue.new
          (median ((validAccounts from_group responses).map fun a => a.value.stored_total_size))
          (median ((validAccounts from_group responses).map fun a => a.value.lost_total_size))
          (median ((validAccounts from_group responses).map fun a => a.value.offered_space))))
      ∧ Account.merge 0 [some (Account.new 0 (AccountValue.new 10 1 2)),
            some (Account.new 0 (AccountValue.new 20 3 4)),
            some (Account.new 0 (AccountValue.new 30 5 6))]
          = some (Account.new 0 (AccountValue.new 20 3 4))
      ∧ Account.merge 0 [some (Account.new 0 (AccountValue.new 10 1 2)),
            some (Account.new 0 (AccountValue.new 20 3 4)),
            some (Account.new 0 (AccountValue.new 30 5 6)),
            some (Account.new 0 (AccountValue.new 40 7 8))]
          = some (Account.new 0 (AccountValue.new 25 4 5)) :=
  ⟨pm_merge_eq_medians from_group responses, by decide, by decide⟩

/-- Witness for C4 at a concrete one-report batch. -/
theorem c4_pm_merge_median_witness :
    validAccounts 0 [some (Account.new 0 (AccountValue.new 7 8 9))] ≠ []
      ∧ Account.merge 0 [some (Account.new 0 (AccountValue.new 7 8 9))]
          = some (Account.new 0 (AccountValue.new
              (median ((validAccounts 0 [some (Account.new 0 (AccountValue.new 7 8 9))]).map
                fun a => a.value.stored_total_size))
              (median ((validAccounts 0 [some (Account.new 0 (AccountValue.new 7 8 9))]).map
                fun a => a.value.lost_total_size))
              (median ((validAccounts 0 [some (Account.new 0 (AccountValue.new 7 8 9))]).map
                fun a => a.value.offered_space)))) :=
  ⟨by decide,
   (c4_pm_merge_median 0 [some (Account.new 0 (AccountValue.new 7 8 9))] (by decide)).1⟩

/-- Projection of `delete_data` on the stored total. -/
theorem delete_data_stored (v : AccountValue) (size : Nat) :
    (v.delete_data size).stored_total_size
      = if v.stored_total_size < size then 0 else v.stored_total_size - size := by
  unfold AccountValue.delete_data
  split <;> rfl

/-- `delete_data` leaves the lost total unchanged. -/
theorem delete_data_lost (v : AccountValue) (size : Nat) :
    (v.delete_data size).lost_total_size = v.lost_total_size := by
  unfold AccountValue.delete_data
  split <;> rfl

/-- `delete_data` leaves the offered space unchanged. -/
theorem delete_data_offered (v : AccountValue) (size : Nat) :
    (v.delete_data size).offered_space = v.offered_space := by
  unfold AccountValue.delete_data
  split <;> rfl

/-- Projection of `put_data` on the stored total. -/
theorem put_data_stored (v : AccountValue) (size : Nat) :
    ((v.put_data size).1).stored_total_size = (v.stored_total_size + size) % 2 ^ 64 := rfl

/-- Claim C7: `delete_data` subtracts when the size fits, clamps the stored
total at zero otherwise, never exceeds the previous stored total, and leaves
the other two counters unchanged. -/
theorem c7_delete_data_clamps (v : AccountValue) (size : Nat) :
    (v.delete_data size).stored_total_size
        = (if size ≤ v.stored_total_size then v.stored_total_size - size else 0)
      ∧ (v.delete_data size).stored_total_size ≤ v.stored_total_size
      ∧ (v.delete_data size).lost_total_size = v.lost_total_size
      ∧ (v.delete_data size).offered_space = v.offered_space := by
  refine ⟨?_, ?_, delete_data_lost v size, delete_data_offered v size⟩
  · rw [delete_data_stored]
    by_cases hc : v.stored_total_size < size
    · rw [if_pos hc, if_neg (by omega)]
    · rw [if_neg hc, if_pos (by omega)]
  · rw [delete_data_stored]
    split <;> omega

/-- Claim C8: `put_data` then `delete_data` of the same size restores the
stored total, for sizes not exceeding the post-put stored total (and a
well-formed `u64` pre-state). -/
theorem c8_put_delete_roundtrip (v : AccountValue) (size : Nat)
    (hv : v.stored_total_size < 2 ^ 64)
    (h : size ≤ ((v.put_data size).1).stored_total_size) :
    (((v.put_data size).1).delete_data size).stored_total_size = v.stored_total_size := by
  have h' : size ≤ (v.stored_total_size + size) % 2 ^ 64 := by
    rw [← put_data_stored]; exact h
  have hmod := Nat.div_add_mod (v.stored_total_size + size) (2 ^ 64)
  have hlt : (v.stored_total_size + size) % 2 ^ 64 < 2 ^ 64 :=
    Nat.mod_lt _ (by norm_num)
  rw [delete_data_stored, put_data_stored]
  split <;> omega

/-- Witness for C8 at a concrete account and size. -/
theorem c8_put_delete_roundtrip_witness :
    (AccountValue.new 5 0 0).stored_total_size < 2 ^ 64
      ∧ 3 ≤ (((AccountValue.new 5 0 0).put_data 3).1).stored_total_size
      ∧ ((((AccountValue.new 5 0 0).put_data 3).1).delete_data 3).stored_total_size
          = (AccountValue.new 5 0 0).stored_total_size :=
  ⟨by decide, by decide,
   c8_put_delete_roundtrip (AccountValue.new 5 0 0) 3 (by decide) (by decide)⟩

end PmidManager

namespace DataManager

/-- Claim C2, code evaluated at the failing inputs: a batch with no valid
report (empty, undecodable, or key-mismatched) leaves `stats` empty, and the
unchecked `stats[0]` panics instead of returning the explicit `None`. -/
theorem c2_merge_no_valid_panics :
    Account.merge 8 0 ([] : List (Option Account)) = Except.error ()
      ∧ Account.merge 8 0 [none] = Except.error ()
      ∧ Account.merge 8 0 [some (Account.new 1 [2])] = Except.error () :=
  ⟨rfl, rfl, rfl⟩

/-- The report-bucketing loop of the holder merge equals bucketing the valid
reports. -/
theorem dm_stats_eq (from_group : NameType) :
    ∀ (responses : List (Option Account)) (st : List (PmidNodes × Nat)),
      responses.foldl
        (fun stats r =>
          match r with
          | none => stats
          | some account =>
              if account.name ≠ from_group then stats
              else bump stats account.data_holders)
        st
      = (validAccounts from_group responses).foldl (fun stats a => bump stats a.data_holders) st
  | [], st => by simp [validAccounts]
  | none :: rs, st => by simpa [validAccounts] using dm_stats_eq from_group rs st
  | some a :: rs, st => by
      by_cases h : a.name = from_group
      · simpa [validAccounts, h] using dm_stats_eq from_group rs (bump st a.data_holders)
      · simpa [validAccounts, h] using dm_stats_eq from_group rs st

/-- `bump` never returns the empty bucket list. -/
theorem bump_ne_nil (stats : List (PmidNodes × Nat)) (holders : PmidNodes) :
    bump stats holders ≠ [] := by
  cases stats with
  | nil => simp [bump]
  | cons p rest =>
      obtain ⟨q, c⟩ := p
      simp only [bump]
      split <;> simp

/-- Folding `bump` preserves nonemptiness of the bucket list. -/
theorem foldl_bump_ne_nil (l : List Account) :
    ∀ st : List (PmidNodes × Nat), st ≠ [] →
      l.foldl (fun stats a => bump stats a.data_holders) st ≠ [] := by
  induction l with
  | nil => intro st h; simpa using h
  | cons a as ih =>
      intro st _
      simp only [List.foldl]
      exact ih (bump st a.data_holders) (bump_ne_nil st a.data_holders)

/-- The head of the stable descending-by-count sort is the first bucket
reaching the maximal count. -/
theorem head_insertionSort_firstMax (l : List (PmidNodes × Nat)) :
    (List.insertionSort (fun a b => b.2 ≤ a.2) l).head? = firstMax l := by
  induction l with
  | nil => rfl
  | cons x xs ih =>
      simp only [List.insertionSort]
      cases hs : List.insertionSort (fun a b => b.2 ≤ a.2) xs with
      | nil =>
          rw [hs] at ih
          simp only [List.head?] at ih
          simp only [List.orderedInsert, List.head?, firstMax, ← ih]
      | cons y t =>
          rw [hs] at ih
          simp only [List.head?] at ih
          simp only [List.orderedInsert, firstMax, ← ih]
          by_cases hxy : y.2 ≤ x.2
          · rw [if_pos hxy]
            simp only [List.head?]
            rw [if_neg (by omega)]
          · rw [if_neg hxy]
            simp only [List.head?]
            rw [if_pos (by omega)]

/-- Claim C1: on a batch with at least one valid report, the holder merge
returns normally and implements the quorum rule of §4.3: discard invalid
reports, bucket by exact holder set counting occurrences, pick the first
bucket reaching the maximal count, and return an account for `from_group`
with that holder set exactly when the count is at least
`(group_size + 1) / 2`. -/
theorem c1_holder_merge_quorum (group_size : Nat) (from_group : NameType)
    (responses : List (Option Account))
    (h : validAccounts from_group responses ≠ []) :
    Account.merge group_size from_group responses
      = Except.ok (mergeSpec group_size from_group responses) := by
  have hstats := dm_stats_eq from_group responses []
  have hne : (validAccounts from_group responses).foldl
      (fun stats a => bump stats a.data_holders) [] ≠ [] := by
    cases hv : validAccounts from_group responses with
    | nil => exact absurd hv h
    | cons a as =>
        simp only [List.foldl]
        exact foldl_bump_ne_nil as (bump [] a.data_holders) (bump_ne_nil [] a.data_holders)
  simp only [Account.merge, mergeSpec, hstats]
  have hh := head_insertionSort_firstMax
    ((validAccounts from_group responses).foldl (fun stats a => bump stats a.data_holders) [])
  cases hs : List.insertionSort (fun a b => b.2 ≤ a.2)
      ((validAccounts from_group responses).foldl (fun stats a => bump stats a.data_holders) [])
      with
  | nil =>
      exfalso
      apply hne
      have hperm := List.perm_insertionSort (fun a b => b.2 ≤ a.2)
        ((validAccounts from_group responses).foldl (fun stats a => bump stats a.data_holders) [])
      rw [hs] at hperm
      have hlen := hperm.length_eq
      simp only [List.length_nil] at hlen
      exact List.length_eq_zero.mp hlen.symm
  | cons b t =>
      rw [hs] at hh
      simp only [List.head?] at hh
      obtain ⟨pmids, count⟩ := b
      rw [← hh]
      simp only [ge_iff_le]
      split
      · rfl
      · rfl

/-- Witness for C1 at a concrete one-valid-report batch. -/
theorem c1_holder_merge_quorum_witness :
    validAccounts 0 [some (Account.new 0 [1])] ≠ []
      ∧ Account.merge 4 0 [some (Account.new 0 [1])]
          = Except.ok (mergeSpec 4 0 [some (Account.new 0 [1])]) :=
  ⟨by decide, c1_holder_merge_quorum 4 0 [some (Account.new 0 [1])] (by decide)⟩

/-- Claim C6: the churn drain of a one-entry store with holders
`[A, B, C]` emits exactly one refresh (no fetch) and the key then no longer
exists; with single holder `[A]` it emits one fetch from `A` plus one
refresh, and the table is empty afterwards. -/
theorem c6_churn_drain (K A B C : NameType) (_h1 : A ≠ B) (_h2 : A ≠ C) (_h3 : B ≠ C) :
    ((⟨[(K, [A, B, C])], [], []⟩ : Database).retrieve_all_and_reset []).1
        = [MethodCall.Refresh DATA_MANAGER_ACCOUNT_TAG (Authority.NaeManager K)
             (Account.new K [A, B, C])]
      ∧ ((((⟨[(K, [A, B, C])], [], []⟩ : Database).retrieve_all_and_reset []).2).exist K) = false
      ∧ ((⟨[(K, [A])], [], []⟩ : Database).retrieve_all_and_reset []).1
          = [MethodCall.Get (Authority.ManagedNode A)
               (DataRequest.ImmutableData K ImmutableDataType.Normal),
             MethodCall.Refresh DATA_MANAGER_ACCOUNT_TAG (Authority.NaeManager K)
               (Account.new K [A])]
      ∧ ((((⟨[(K, [A])], [], []⟩ : Database).retrieve_all_and_reset []).2).storage
          = ([] : List (DataName × PmidNodes))) :=
  ⟨rfl, rfl, rfl, rfl⟩

/-- Witness for C6 at concrete distinct identities. -/
theorem c6_churn_drain_witness :
    ((0 : NameType) ≠ 1 ∧ (1 : NameType) ≠ 2 ∧ (1 : NameType) ≠ 3 ∧ (2 : NameType) ≠ 3)
      ∧ ((⟨[(0, [1, 2, 3])], [], []⟩ : Database).retrieve_all_and_reset []).1
          = [MethodCall.Refresh DATA_MANAGER_ACCOUNT_TAG (Authority.NaeManager 0)
               (Account.new 0 [1, 2, 3])] :=
  ⟨by decide, (c6_churn_drain 0 1 2 3 (by decide) (by decide) (by decide)).1⟩

/-- Claim C9, counterexample: `put_pmid_nodes` stores a duplicated holder
list verbatim, so the no-duplicate invariant fails on a reachable state. -/
theorem c9_counterexample :
    ¬ ((applyOps Database.new [Op.put 0 [1, 1]]).get_pmid_nodes 0).Nodup := by decide

/-- Each store operation preserves duplicate-freedom of every stored holder
list, provided the holder lists it inserts verbatim are duplicate-free. -/
theorem applyOp_preserves_nodup (db : Database) (op : Op)
    (hdb : ∀ p ∈ db.storage, p.2.Nodup) (hop : op.argsNodup) :
    ∀ p ∈ (applyOp db op).storage, p.2.Nodup := by
  cases op with
  | put name ns =>
      intro p hp
      simp only [applyOp, Database.put_pmid_nodes] at hp
      cases hlk : db.storage.lookup name with
      | some w => rw [hlk] at hp; exact hdb p hp
      | none =>
          rw [hlk] at hp
          simp only [List.mem_append, List.mem_singleton] at hp
          rcases hp with hp | hp
          · exact hdb p hp
          · subst hp; exact hop
  | add name n =>
      intro p hp
      simp only [applyOp, Database.add_pmid_node] at hp
      cases hlk : db.storage.lookup name with
      | none =>
          rw [hlk] at hp
          simp only [List.mem_append, List.mem_singleton] at hp
          rcases hp with hp | hp
          · exact hdb p hp
          · subst hp; simp
      | some w =>
          rw [hlk] at hp
          simp only [List.mem_map] at hp
          obtain ⟨q, hq, hfq⟩ := hp
          subst hfq
          by_cases hqn : q.1 = name
          · simp only [if_pos hqn]
            by_cases hmem : n ∈ q.2
            · show (if n ∈ q.2 then q.2 else q.2 ++ [n]).Nodup
              simpa [hmem] using hdb q hq
            · show (if n ∈ q.2 then q.2 else q.2 ++ [n]).Nodup
              rw [if_neg hmem]
              refine List.Nodup.append (hdb q hq) (List.nodup_singleton n) ?_
              intro x hx hxn
              simp only [List.mem_singleton] at hxn
              subst hxn
              exact hmem hx
          · simp only [if_neg hqn]
            exact hdb q hq
  | remove name n =>
      intro p hp
      simp only [applyOp, Database.remove_pmid_node] at hp
      cases hlk : db.storage.lookup name with
      | none => rw [hlk] at hp; exact hdb p hp
      | some w =>
          rw [hlk] at hp
          simp only [List.mem_map] at hp
          obtain ⟨q, hq, hfq⟩ := hp
          subst hfq
          by_cases hqn : q.1 = name
          · simp only [if_pos hqn]
            show (q.2.erase n).Nodup
            exact (hdb q hq).erase n
          · simp only [if_neg hqn]
            exact hdb q hq
  | transfer a =>
      intro p hp
      simp only [applyOp, Database.handle_account_transfer, setEntry] at hp
      simp only [List.mem_append, List.mem_singleton, List.mem_filter] at hp
      rcases hp with ⟨hp, _⟩ | hp
      · exact hdb p hp
      · subst hp; exact hop

/-- Claim C9 as amended: a state reachable from the empty store by
`put_pmid_nodes`, `add_pmid_node`, `remove_pmid_node` and
`handle_account_transfer` stores only duplicate-free holder lists,
provided every holder list passed verbatim to `put_pmid_nodes` and
`handle_account_transfer` is itself duplicate-free. -/
theorem c9_nodup_holder_lists (ops : List Op) (h : ∀ op ∈ ops, op.argsNodup) :
    ∀ p ∈ (applyOps Database.new ops).storage, p.2.Nodup := by
  suffices main : ∀ (l : List Op) (db : Database), (∀ p ∈ db.storage, p.2.Nodup) →
      (∀ op ∈ l, op.argsNodup) → ∀ p ∈ (applyOps db l).storage, p.2.Nodup by
    refine main ops Database.new ?_ h
    intro p hp
    simp [Database.new] at hp
  intro l
  induction l with
  | nil =>
      intro db hdb _
      simpa [applyOps] using hdb
  | cons op l ih =>
      intro db hdb hops
      have h1 := applyOp_preserves_nodup db op hdb (hops op (List.mem_cons_self op l))
      have h2 : ∀ o ∈ l, o.argsNodup := fun o ho => hops o (List.mem_cons_of_mem op ho)
      simpa [applyOps] using ih (applyOp db op) h1 h2

/-- Witness for C9's amended theorem on a concrete operation sequence. -/
theorem c9_nodup_holder_lists_witness :
    (∀ op ∈ ([Op.put 0 [1, 2], Op.add 0 3, Op.remove 0 1,
        Op.transfer (Account.new 5 [7])] : List Op), op.argsNodup)
      ∧ ∀ p ∈ (applyOps Database.new [Op.put 0 [1, 2], Op.add 0 3, Op.remove 0 1,
          Op.transfer (Account.new 5 [7])]).storage, p.2.Nodup :=
  ⟨by decide,
   c9_nodup_holder_lists
     [Op.put 0 [1, 2], Op.add 0 3, Op.remove 0 1, Op.transfer (Account.new 5 [7])]
     (by decide)⟩

end DataManager

/-- Claim C10: an account transfer overwrites exactly the entry stored under
the account's name — in the holder-tracking store with the transferred
holder set, in the usage-tracking store with the transferred account value —
and the entry of every other key in either store is unchanged. -/
theorem c10_account_transfer_frame (db : DataManager.Database) (a : DataManager.Account)
    (pdb : PmidManager.PmidManagerDatabase) (pa : PmidManager.Account) (k : NameType) :
    ((db.handle_account_transfer a).storage.lookup a.name = some a.data_holders)
      ∧ (k ≠ a.name → (db.handle_account_transfer a).storage.lookup k = db.storage.lookup k)
      ∧ ((pdb.handle_account_transfer pa).storage.lookup pa.name = some pa.value)
      ∧ (k ≠ pa.name → (pdb.handle_account_transfer pa).storage.lookup k
            = pdb.storage.lookup k) := by
  refine ⟨?_, ?_, ?_, ?_⟩
  · exact lookup_setEntry_self db.storage a.name a.data_holders
  · intro hk
    exact lookup_setEntry_other db.storage a.name k a.data_holders hk
  · exact lookup_setEntry_self pdb.storage pa.name pa.value
  · intro hk
    exact lookup_setEntry_other pdb.storage pa.name k pa.value hk

/-- Witness for C10 at concrete stores, account and distinct other key. -/
theorem c10_account_transfer_frame_witness :
    ((1 : NameType) ≠ (DataManager.Account.new 3 [4]).name)
      ∧ (((⟨[(1, [2])], [], []⟩ : DataManager.Database).handle_account_transfer
            (DataManager.Account.new 3 [4])).storage.lookup 1
          = (⟨[(1, [2])], [], []⟩ : DataManager.Database).storage.lookup 1) :=
  ⟨by decide,
   (c10_account_transfer_frame ⟨[(1, [2])], [], []⟩ (DataManager.Account.new 3 [4])
      ⟨[]⟩ (PmidManager.Account.new 0 (PmidManager.AccountValue.new 0 0 0)) 1).2.1
     (by decide)⟩

/-- Claim C5, code evaluated at the failing input: the two central values
`2 ^ 63` overflow the `u64` addition, so the median of
`[2 ^ 63, 2 ^ 63]` is computed as `0` — below the minimum of the sequence
and not the floor of the average of the two central values. -/
theorem c5_median_overflow :
    median [9223372036854775808, 9223372036854775808] = 0 := by decide

end MaidsafeVault
